import Mathlib

set_option linter.unusedVariables false

namespace Clawdis

/-!
Shallow embedding of the skill capability resolution and activation engine
of `src/agents/skills.ts` and `src/agents/skills-install.ts`.

Modelling conventions:
* JavaScript strings are `String` (or `List Char` where index arithmetic is
  needed, as in the frontmatter parser); JavaScript string truthiness
  (`""` is falsy) is `optStrTruthy` / `envTruthy`.
* The process environment `process.env` is an association list from variable
  names to values; `undefined` is absence from the list.
* External collaborators (the directory loader, the process runner
  `runCommandWithTimeout`, the file system, `hasBinary`'s PATH scan and
  `JSON.parse`) are passed as explicit parameters to the functions that
  use them.
-/

/-- ASCII fragment of the whitespace class used by JavaScript's
`String.prototype.trim` and the regex class `\s`. -/
def isWs (c : Char) : Bool :=
  c = ' ' || c = '\t' || c = '\n' || c = '\r' || c = '\x0b' || c = '\x0c'

/-- `String.prototype.trim` on a character list. -/
def jsTrimL (l : List Char) : List Char :=
  ((l.dropWhile isWs).reverse.dropWhile isWs).reverse

/-- `String.prototype.trim`. -/
def jsTrimStr (s : String) : String :=
  String.mk (jsTrimL s.data)

/-- Decimal digit character. -/
def digitChar (d : Nat) : Char :=
  match d with
  | 0 => '0'
  | 1 => '1'
  | 2 => '2'
  | 3 => '3'
  | 4 => '4'
  | 5 => '5'
  | 6 => '6'
  | 7 => '7'
  | 8 => '8'
  | _ => '9'

/-- Decimal rendering, fuel-based so that it reduces by computation; the
fuel `n + 1` always suffices since a number has at most `n + 1` digits. -/
def natDigitsAux : Nat → Nat → List Char
  | 0, _ => []
  | fuel + 1, n =>
    if n < 10 then [digitChar n]
    else natDigitsAux fuel (n / 10) ++ [digitChar (n % 10)]

/-- Decimal rendering of a natural number (JavaScript number-to-string for
the nonnegative list indices used in template literals). -/
def natDigits (n : Nat) : List Char := natDigitsAux (n + 1) n

def natDigitsStr (n : Nat) : String := String.mk (natDigits n)

/-- JavaScript `Map.prototype.set` / object property assignment on an
association list: overwrite in place, else append (insertion order kept). -/
def mapSet {α β : Type} [DecidableEq α] : List (α × β) → α → β → List (α × β)
  | [], k, v => [(k, v)]
  | (k', v') :: rest, k, v =>
    if k' = k then (k, v) :: rest else (k', v') :: mapSet rest k v

/-- Key lookup on an association list (first binding wins). -/
def mapGet {α β : Type} [DecidableEq α] (m : List (α × β)) (k : α) : Option β :=
  (m.find? (fun p => decide (p.1 = k))).map Prod.snd

/-- The process environment: variable name to value, `undefined` = absent. -/
abbrev Env := List (String × String)

def envGet (env : Env) (k : String) : Option String := mapGet env k

def envSet (env : Env) (k v : String) : Env := mapSet env k v

/-- `delete process.env[k]`. -/
def envDelete (env : Env) (k : String) : Env :=
  env.filter (fun p => decide (p.1 ≠ k))

/-- JavaScript truthiness of `process.env[k]`: set to a non-empty string. -/
def envTruthy (env : Env) (k : String) : Bool :=
  decide ((envGet env k).getD "" ≠ "")

/-- JavaScript truthiness of an optional string. -/
def optStrTruthy (o : Option String) : Bool :=
  decide (o.getD "" ≠ "")

/-! ## Data model (`skills.ts`) -/

/-- A skill record produced by the external loader: `name`, `filePath`
and a description payload.  Referenced, never mutated, by this core. -/
structure Skill where
  name : String
  filePath : String
  description : String
deriving Repr, DecidableEq

/-- `SkillInstallSpec`.  `kind` is kept as a raw string, as in the
JavaScript runtime, so that the `"unsupported installer"` default branch of
`buildInstallCommand` is representable. -/
structure SkillInstallSpec where
  id : Option String
  kind : String
  label : Option String
  bins : List String
  formula : Option String
  package : Option String
  module : Option String
deriving Repr, DecidableEq

/-- `requires` block after `normalizeStringList` (missing lists become `[]`). -/
structure SkillRequires where
  bins : List String
  env : List String
  config : List String
deriving Repr, DecidableEq

structure ClawdisSkillMetadata where
  always : Option Bool
  skillKey : Option String
  primaryEnv : Option String
  emoji : Option String
  homepage : Option String
  requires : Option SkillRequires
  install : Option (List SkillInstallSpec)
deriving Repr, DecidableEq

/-- `SkillEntry`: skill record, parsed frontmatter and decoded metadata. -/
structure SkillEntry where
  skill : Skill
  frontmatter : List (List Char × List Char)
  clawdis : Option ClawdisSkillMetadata
deriving Repr, DecidableEq

/-- Per-skill configuration (`SkillConfig` from `config.js`), with the three
fields this core reads: `enabled`, `env` and `apiKey`. -/
structure SkillConfig where
  enabled : Option Bool
  env : Option (List (String × String))
  apiKey : Option String
deriving Repr, DecidableEq

/-- A JSON-like configuration tree traversed by dotted-path lookups. -/
inductive ConfigValue where
  | vnull
  | vbool (b : Bool)
  | vnum (n : Int)
  | vstr (s : String)
  | varr (elems : List ConfigValue)
  | vobj (fields : List (String × ConfigValue))

structure SkillsInstallConfig where
  preferBrew : Option Bool
  nodeManager : Option String
deriving Repr, DecidableEq

/-- `ClawdisConfig`: the typed views read by this core (`skills`,
`skillsInstall`) plus the raw tree traversed by `resolveConfigPath`. -/
structure ClawdisConfig where
  skills : Option (List (String × SkillConfig))
  skillsInstall : Option SkillsInstallConfig
  tree : ConfigValue

structure SkillsInstallPreferences where
  preferBrew : Bool
  nodeManager : String
deriving Repr, DecidableEq

structure SnapshotSkill where
  name : String
  primaryEnv : Option String
deriving Repr, DecidableEq

structure SkillSnapshot where
  prompt : String
  skills : List SnapshotSkill
deriving Repr, DecidableEq

/-! ## Metadata parser (`stripQuotes`, `parseFrontmatter`) -/

/-- The JavaScript regex word class `[\w-]`. -/
def isWordChar (c : Char) : Bool := c.isAlphanum || c = '_' || c = '-'

def listStartsWith (l pre : List Char) : Bool := pre.isPrefixOf l

def listEndsWith (l suf : List Char) : Bool := suf.isSuffixOf l

/-- `stripQuotes`: one layer of surrounding matching single or double
quotes is removed (`slice(1, -1)`). -/
def stripQuotes (value : List Char) : List Char :=
  if (listStartsWith value ['"'] && listEndsWith value ['"'])
      || (listStartsWith value ['\''] && listEndsWith value ['\'']) then
    (value.drop 1).dropLast
  else value

/-- One frontmatter line matched against `^([\w-]+):\s*(.*)$`, the value
trimmed and quote-stripped.  `none` when the pattern does not match. -/
def parseLine (line : List Char) : Option (List Char × List Char) :=
  let key := line.takeWhile isWordChar
  if key = [] then none
  else
    match line.drop key.length with
    | ':' :: rest => some (key, stripQuotes (jsTrimL (rest.dropWhile isWs)))
    | _ => none

def crToNl (c : Char) : Char := if c = '\r' then '\n' else c

/-- First normalization pass `content.replace(/\r\n/g, "\n")` (left-to-right
non-overlapping replacement, as the global regex performs). -/
def normalizeCRLF : List Char → List Char
  | [] => []
  | [c] => [c]
  | c :: d :: rest =>
    if c = '\r' ∧ d = '\n' then '\n' :: normalizeCRLF rest
    else c :: normalizeCRLF (d :: rest)

/-- `content.replace(/\r\n/g, "\n").replace(/\r/g, "\n")`. -/
def normalizeNewlines (l : List Char) : List Char :=
  (normalizeCRLF l).map crToNl

/-- `String.prototype.split(sep)` on a character list. -/
def splitOnChar (sep : Char) : List Char → List (List Char)
  | [] => [[]]
  | c :: rest =>
    let r := splitOnChar sep rest
    if c = sep then [] :: r
    else
      match r with
      | [] => [[c]]
      | h :: t => (c :: h) :: t

/-- First index at which `needle` occurs in the list, if any. -/
def findSub (needle : List Char) : List Char → Option Nat
  | [] => if needle.isPrefixOf ([] : List Char) then some 0 else none
  | c :: rest =>
    if needle.isPrefixOf (c :: rest) then some 0
    else (findSub needle rest).map (· + 1)

/-- JavaScript `indexOf(needle, start)`; `none` models `-1`. -/
def indexOfFrom (hay needle : List Char) (start : Nat) : Option Nat :=
  (findSub needle (hay.drop start)).map (· + start)

/-- `parseFrontmatter`: normalize line endings, require the text to start
with `---`, find the closing `\n---`, and fold the `key: value` lines of the
block into a mapping (later lines overwrite earlier ones). -/
def parseFrontmatter (content : List Char) : List (List Char × List Char) :=
  let normalized := normalizeNewlines content
  if ¬ listStartsWith normalized ['-', '-', '-'] then []
  else
    match indexOfFrom normalized ['\n', '-', '-', '-'] 3 with
    | none => []
    | some endIndex =>
      let block := (normalized.take endIndex).drop 4
      (splitOnChar '\n' block).foldl
        (fun fm line =>
          match parseLine line with
          | none => fm
          | some (k, v) => if v = [] then fm else mapSet fm k v)
        []

/-! ## Configuration lookups -/

def lookupField (fields : List (String × ConfigValue)) (k : String) : Option ConfigValue :=
  mapGet fields k

/-- `resolveConfigPath`: split the dotted path, drop empty parts, and walk
the tree; any non-object intermediate yields `undefined`. -/
def resolveConfigPath (config : Option ConfigValue) (pathStr : String) : Option ConfigValue :=
  let parts := (pathStr.splitOn ".").filter (fun p => decide (p ≠ ""))
  parts.foldl
    (fun current part =>
      match current with
      | some (ConfigValue.vobj fields) => lookupField fields part
      | _ => none)
    config

/-- `isTruthy`: undefined/null false, booleans themselves, numbers nonzero,
strings non-empty after trim, objects and arrays true. -/
def isTruthy (value : Option ConfigValue) : Bool :=
  match value with
  | none => false
  | some ConfigValue.vnull => false
  | some (ConfigValue.vbool b) => b
  | some (ConfigValue.vnum n) => decide (n ≠ 0)
  | some (ConfigValue.vstr s) => decide (jsTrimStr s ≠ "")
  | some (ConfigValue.varr _) => true
  | some (ConfigValue.vobj _) => true

def DEFAULT_CONFIG_VALUES : List (String × Bool) := [("browser.enabled", true)]

/-- `isConfigPathTruthy`: an undefined value falls back to the defaults
table when the path is present there. -/
def isConfigPathTruthy (config : Option ConfigValue) (pathStr : String) : Bool :=
  let value := resolveConfigPath config pathStr
  match value, mapGet DEFAULT_CONFIG_VALUES pathStr with
  | none, some dflt => dflt
  | _, _ => isTruthy value

/-- `resolveSkillConfig`: the per-skill entry of `config.skills`. -/
def resolveSkillConfig (config : Option ClawdisConfig) (skillKey : String) : Option SkillConfig :=
  (config.bind ClawdisConfig.skills).bind (fun skills => mapGet skills skillKey)

/-- `resolveSkillKey`: `entry?.clawdis?.skillKey ?? skill.name`. -/
def resolveSkillKey (entry : SkillEntry) : String :=
  (entry.clawdis.bind ClawdisSkillMetadata.skillKey).getD entry.skill.name

/-! ## Eligibility filter (`shouldIncludeSkill`)

`hasBinary`'s PATH-and-filesystem scan is an external capability; it is
passed as `hasBin : String → Bool`. -/

/-- The `requiredBins` loop: `return false` on the first missing binary. -/
def binsLoop (hasBin : String → Bool) : List String → Bool
  | [] => true
  | b :: rest => if hasBin b then binsLoop hasBin rest else false

/-- The `requiredEnv` loop: a name is passed over when the process variable
is truthy, the per-skill `env` override is truthy, or the skill's
`primaryEnv` equals the name and a truthy `apiKey` is configured. -/
def envReqLoop (env : Env) (skillConfig : Option SkillConfig)
    (meta : Option ClawdisSkillMetadata) : List String → Bool
  | [] => true
  | envName :: rest =>
    if envTruthy env envName then envReqLoop env skillConfig meta rest
    else if optStrTruthy ((skillConfig.bind SkillConfig.env).bind (fun pairs => mapGet pairs envName)) then
      envReqLoop env skillConfig meta rest
    else if optStrTruthy (skillConfig.bind SkillConfig.apiKey)
        && decide ((meta.bind ClawdisSkillMetadata.primaryEnv) = some envName) then
      envReqLoop env skillConfig meta rest
    else false

/-- The `requiredConfig` loop over dotted configuration paths. -/
def configLoop (config : Option ClawdisConfig) : List String → Bool
  | [] => true
  | p :: rest =>
    if isConfigPathTruthy (config.map ClawdisConfig.tree) p then configLoop config rest
    else false

/-- `shouldIncludeSkill`:
1. per-skill `enabled === false` excludes unconditionally;
2. else `always === true` includes, skipping every requirement check;
3. else the three requirement lists must all be satisfied. -/
def shouldIncludeSkill (hasBin : String → Bool) (env : Env)
    (config : Option ClawdisConfig) (entry : SkillEntry) : Bool :=
  let skillKey := resolveSkillKey entry
  let skillConfig := resolveSkillConfig config skillKey
  if (skillConfig.bind SkillConfig.enabled) = some false then false
  else if (entry.clawdis.bind ClawdisSkillMetadata.always) = some true then true
  else
    let requiredBins := ((entry.clawdis.bind ClawdisSkillMetadata.requires).map SkillRequires.bins).getD []
    if 0 < requiredBins.length ∧ binsLoop hasBin requiredBins = false then false
    else
      let requiredEnv := ((entry.clawdis.bind ClawdisSkillMetadata.requires).map SkillRequires.env).getD []
      if 0 < requiredEnv.length ∧ envReqLoop env skillConfig entry.clawdis requiredEnv = false then false
      else
        let requiredConfig := ((entry.clawdis.bind ClawdisSkillMetadata.requires).map SkillRequires.config).getD []
        if 0 < requiredConfig.length ∧ configLoop config requiredConfig = false then false
        else true

def filterSkillEntries (hasBin : String → Bool) (env : Env)
    (entries : List SkillEntry) (config : Option ClawdisConfig) : List SkillEntry :=
  entries.filter (fun entry => shouldIncludeSkill hasBin env config entry)

/-! ## Environment activator

`applySkillEnvOverrides` mutates `process.env` and returns a reversal
closure over the recorded `updates`.  The state threaded through the loops
is the pair (current environment, updates recorded so far); the reversal
closure is `revertUpdates` applied to the recorded updates. -/

structure EnvUpdate where
  key : String
  prev : Option String
deriving Repr, DecidableEq

abbrev ApplyState := Env × List EnvUpdate

/-- `updates.push({ key, prev: process.env[key] }); process.env[key] = v`. -/
def pushSet (st : ApplyState) (k v : String) : ApplyState :=
  (envSet st.1 k v, st.2 ++ [⟨k, envGet st.1 k⟩])

/-- The loop over `Object.entries(skillConfig.env)`: a pair is skipped when
its value is falsy or the variable is already truthy in the process. -/
def applyEnvPairs (st : ApplyState) (pairs : List (String × String)) : ApplyState :=
  pairs.foldl
    (fun st p =>
      if p.2 = "" ∨ envTruthy st.1 p.1 = true then st
      else pushSet st p.1 p.2)
    st

/-- The `primaryEnv` credential injection, shared verbatim by both
activation variants. -/
def applyPrimaryEnv (st : ApplyState) (primaryEnv : Option String) (apiKey : Option String) : ApplyState :=
  if optStrTruthy primaryEnv = true ∧ optStrTruthy apiKey = true
      ∧ envTruthy st.1 (primaryEnv.getD "") = false then
    pushSet st (primaryEnv.getD "") (apiKey.getD "")
  else st

/-- The body of `applySkillEnvOverrides` for one skill entry. -/
def applyEntryOverrides (config : Option ClawdisConfig) (st : ApplyState) (entry : SkillEntry) : ApplyState :=
  match resolveSkillConfig config (resolveSkillKey entry) with
  | none => st
  | some sc =>
    let st1 :=
      match sc.env with
      | none => st
      | some pairs => applyEnvPairs st pairs
    applyPrimaryEnv st1 (entry.clawdis.bind ClawdisSkillMetadata.primaryEnv) sc.apiKey

/-- `applySkillEnvOverrides`: final environment and recorded updates. -/
def applySkillEnvOverrides (skills : List SkillEntry) (config : Option ClawdisConfig)
    (env : Env) : ApplyState :=
  skills.foldl (applyEntryOverrides config) (env, [])

/-- One step of the reversal closure: delete if previously unset, else set
back to the saved value. -/
def applyRevert (env : Env) (u : EnvUpdate) : Env :=
  match u.prev with
  | none => envDelete env u.key
  | some v => envSet env u.key v

/-- The returned reversal closure: restore every recorded update in order. -/
def revertUpdates (updates : List EnvUpdate) (env : Env) : Env :=
  updates.foldl applyRevert env

/-- The body of `applySkillEnvOverridesFromSnapshot` for one snapshot
skill; the configuration is looked up by `skill.name`. -/
def applySnapshotSkill (config : Option ClawdisConfig) (st : ApplyState) (skill : SnapshotSkill) : ApplyState :=
  match resolveSkillConfig config skill.name with
  | none => st
  | some sc =>
    let st1 :=
      match sc.env with
      | none => st
      | some pairs => applyEnvPairs st pairs
    applyPrimaryEnv st1 skill.primaryEnv sc.apiKey

/-- `applySkillEnvOverridesFromSnapshot`. -/
def applySkillEnvOverridesFromSnapshot (snapshot : Option SkillSnapshot)
    (config : Option ClawdisConfig) (env : Env) : ApplyState :=
  match snapshot with
  | none => (env, [])
  | some snap => snap.skills.foldl (applySnapshotSkill config) (env, [])

/-- The lightweight skill list of `buildWorkspaceSkillSnapshot`. -/
def buildSnapshotSkills (entries : List SkillEntry) : List SnapshotSkill :=
  entries.map (fun e => ⟨e.skill.name, e.clawdis.bind ClawdisSkillMetadata.primaryEnv⟩)

/-- `buildWorkspaceSkillSnapshot`, with the prompt formatter passed as an
external collaborator. -/
def buildWorkspaceSkillSnapshot (formatPrompt : List Skill → String)
    (hasBin : String → Bool) (env : Env) (entries : List SkillEntry)
    (config : Option ClawdisConfig) : SkillSnapshot :=
  let eligible := filterSkillEntries hasBin env entries config
  { prompt := formatPrompt (eligible.map SkillEntry.skill)
    skills := buildSnapshotSkills eligible }

/-! ## Source merger (`loadSkillEntries`)

The four directory loads are external (`loadSkillsFromDir`); the merge takes
their results as four lists.  The per-skill file read and the JSON decode
of `resolveClawdisMetadata` are likewise external parameters. -/

def insertAll (skills : List Skill) (m : List (String × Skill)) : List (String × Skill) :=
  skills.foldl (fun acc s => mapSet acc s.name s) m

/-- The merge map of `loadSkillEntries`, applied in the fixed precedence
order extra, bundled, managed, workspace (later writers win). -/
def mergeSkills (extraSkills bundledSkills managedSkills workspaceSkills : List Skill) :
    List (String × Skill) :=
  insertAll workspaceSkills
    (insertAll managedSkills
      (insertAll bundledSkills
        (insertAll extraSkills [])))

/-- Annotation of one merged skill: read its file, parse the frontmatter
(read failure degrades to an empty mapping), decode the metadata. -/
def mkSkillEntry (readFile : String → Option (List Char))
    (resolveMeta : List (List Char × List Char) → Option ClawdisSkillMetadata)
    (s : Skill) : SkillEntry :=
  let fm :=
    match readFile s.filePath with
    | some raw => parseFrontmatter raw
    | none => []
  { skill := s, frontmatter := fm, clawdis := resolveMeta fm }

/-- `loadSkillEntries` given the four loader results and the file-system
and JSON collaborators. -/
def loadSkillEntries (readFile : String → Option (List Char))
    (resolveMeta : List (List Char × List Char) → Option ClawdisSkillMetadata)
    (extraSkills bundledSkills managedSkills workspaceSkills : List Skill) : List SkillEntry :=
  (mergeSkills extraSkills bundledSkills managedSkills workspaceSkills).map
    (fun p => mkSkillEntry readFile resolveMeta p.2)

/-! ## Install dispatcher (`skills-install.ts`) -/

/-- `resolveInstallId`: `(spec.id ?? kind-index).trim()`. -/
def resolveInstallId (spec : SkillInstallSpec) (index : Nat) : String :=
  jsTrimStr (spec.id.getD (spec.kind ++ "-" ++ natDigitsStr index))

/-- The indexed scan of `findInstallSpec`. -/
def findSpecAux (installId : String) : Nat → List SkillInstallSpec → Option SkillInstallSpec
  | _, [] => none
  | i, spec :: rest =>
    if resolveInstallId spec i = installId then some spec
    else findSpecAux installId (i + 1) rest

/-- `findInstallSpec` over `entry.clawdis?.install ?? []`. -/
def findInstallSpec (entry : SkillEntry) (installId : String) : Option SkillInstallSpec :=
  findSpecAux installId 0 ((entry.clawdis.bind ClawdisSkillMetadata.install).getD [])

def resolveSkillsInstallPreferences (config : Option ClawdisConfig) : SkillsInstallPreferences :=
  let raw := config.bind ClawdisConfig.skillsInstall
  let preferBrew := (raw.bind SkillsInstallConfig.preferBrew).getD true
  let managerRaw := ((raw.bind SkillsInstallConfig.nodeManager).map jsTrimStr).getD ""
  let manager := managerRaw.toLower
  let nodeManager :=
    if manager = "pnpm" ∨ manager = "yarn" ∨ manager = "npm" then manager else "npm"
  { preferBrew := preferBrew, nodeManager := nodeManager }

def buildNodeInstallCommand (packageName : String) (prefs : SkillsInstallPreferences) : List String :=
  if prefs.nodeManager = "pnpm" then ["pnpm", "add", "-g", packageName]
  else if prefs.nodeManager = "yarn" then ["yarn", "global", "add", packageName]
  else ["npm", "install", "-g", packageName]

/-- Result of `buildInstallCommand`: `argv: null` plus an error message on a
synthesis error, else the command line. -/
structure BuildCommandResult where
  argv : Option (List String)
  error : Option String
deriving Repr, DecidableEq

def buildInstallCommand (spec : SkillInstallSpec) (prefs : SkillsInstallPreferences) : BuildCommandResult :=
  if spec.kind = "brew" then
    if optStrTruthy spec.formula = false then { argv := none, error := some "missing brew formula" }
    else { argv := some ["brew", "install", spec.formula.getD ""], error := none }
  else if spec.kind = "node" then
    if optStrTruthy spec.package = false then { argv := none, error := some "missing node package" }
    else { argv := some (buildNodeInstallCommand (spec.package.getD "") prefs), error := none }
  else if spec.kind = "go" then
    if optStrTruthy spec.module = false then { argv := none, error := some "missing go module" }
    else { argv := some ["go", "install", spec.module.getD ""], error := none }
  else if spec.kind = "uv" then
    if optStrTruthy spec.package = false then { argv := none, error := some "missing uv package" }
    else { argv := some ["uv", "tool", "install", spec.package.getD ""], error := none }
  else { argv := none, error := some "unsupported installer" }

/-- `runCommandWithTimeout`'s result shape (`code` nullable on timeout or
spawn failure). -/
structure RunOutcome where
  code : Option Int
  stdout : String
  stderr : String
deriving Repr, DecidableEq

structure SkillInstallResult where
  ok : Bool
  message : String
  stdout : String
  stderr : String
  code : Option Int
deriving Repr, DecidableEq

/-- Execution of the synthesized command (the tail of `installSkill`): the
guard against a null or empty `argv`, then the process run.  Alongside the
result, the list of spawned command lines is returned so that "no process
was spawned" is a statable property. -/
def runInstallCommand (runner : List String → RunOutcome) (command : BuildCommandResult)
    (spawned : List (List String)) : SkillInstallResult × List (List String) :=
  match command.argv with
  | none =>
    ({ ok := false, message := "invalid install command", stdout := "", stderr := "", code := none }, spawned)
  | some argv =>
    if argv.length = 0 then
      ({ ok := false, message := "invalid install command", stdout := "", stderr := "", code := none }, spawned)
    else
      let result := runner argv
      ({ ok := decide (result.code = some 0)
         message := if result.code = some 0 then "Installed" else "Install failed"
         stdout := jsTrimStr result.stdout
         stderr := jsTrimStr result.stderr
         code := result.code }, spawned ++ [argv])

/-- `installSkill`.  The workspace entry load is passed in as `entries`; the
process runner and the PATH scan are external parameters.  The second
component of the result is the list of command lines actually spawned, in
order. -/
def installSkill (runner : List String → RunOutcome) (hasBin : String → Bool)
    (entries : List SkillEntry) (skillName : String) (installId : String)
    (config : Option ClawdisConfig) : SkillInstallResult × List (List String) :=
  match entries.find? (fun item => decide (item.skill.name = skillName)) with
  | none =>
    ({ ok := false, message := "Skill not found: " ++ skillName, stdout := "", stderr := "", code := none }, [])
  | some entry =>
    match findInstallSpec entry installId with
    | none =>
      ({ ok := false, message := "Installer not found: " ++ installId, stdout := "", stderr := "", code := none }, [])
    | some spec =>
      let prefs := resolveSkillsInstallPreferences config
      let command := buildInstallCommand spec prefs
      if optStrTruthy command.error = true then
        ({ ok := false, message := command.error.getD "", stdout := "", stderr := "", code := none }, [])
      else if spec.kind = "uv" ∧ hasBin "uv" = false then
        if hasBin "brew" = true then
          let brewResult := runner ["brew", "install", "uv"]
          if brewResult.code ≠ some 0 then
            ({ ok := false, message := "Failed to install uv (brew)"
               stdout := jsTrimStr brewResult.stdout
               stderr := jsTrimStr brewResult.stderr
               code := brewResult.code }, [["brew", "install", "uv"]])
          else
            runInstallCommand runner command [["brew", "install", "uv"]]
        else
          ({ ok := false, message := "uv not installed (install via brew)", stdout := "", stderr := "", code := none }, [])
      else
        runInstallCommand runner command []

/-! ## Basic lemmas about the association-list operations -/

theorem mapGet_cons {α β : Type} [DecidableEq α] (p : α × β) (m : List (α × β)) (k : α) :
    mapGet (p :: m) k = if p.1 = k then some p.2 else mapGet m k := by
  by_cases h : p.1 = k <;> simp [mapGet, List.find?, h]

theorem mapGet_nil {α β : Type} [DecidableEq α] (k : α) :
    mapGet ([] : List (α × β)) k = none := rfl

theorem mapGet_mapSet {α β : Type} [DecidableEq α] (m : List (α × β)) (k : α) (v : β) (n : α) :
    mapGet (mapSet m k v) n = if n = k then some v else mapGet m n := by
  induction m with
  | nil =>
    have e1 : mapSet ([] : List (α × β)) k v = [(k, v)] := rfl
    rw [e1, mapGet_cons]
    by_cases h : n = k
    · simp [h]
    · have h' : ¬ k = n := fun hh => h hh.symm
      simp [h, h', mapGet_nil]
  | cons p rest ih =>
    obtain ⟨k', v'⟩ := p
    have hunf : mapSet ((k', v') :: rest) k v =
        if k' = k then (k, v) :: rest else (k', v') :: mapSet rest k v := rfl
    rw [hunf]
    by_cases hk : k' = k
    · rw [if_pos hk, mapGet_cons, mapGet_cons]
      by_cases hn : n = k
      · simp [hn]
      · have h1 : ¬ k = n := fun hh => hn hh.symm
        have h2 : ¬ k' = n := fun hh => hn (by rw [← hh, hk])
        simp [hn, h1, h2]
    · rw [if_neg hk, mapGet_cons, mapGet_cons, ih]
      by_cases hk'n : k' = n
      · have hn : ¬ n = k := fun hh => hk (by rw [hk'n, hh])
        simp [hk'n, hn]
      · by_cases hn : n = k <;> simp [hk'n, hn, hk]

theorem envGet_cons (p : String × String) (rest : Env) (n : String) :
    envGet (p :: rest) n = if p.1 = n then some p.2 else envGet rest n :=
  mapGet_cons p rest n

theorem envGet_envDelete (env : Env) (k n : String) :
    envGet (envDelete env k) n = if n = k then none else envGet env n := by
  induction env with
  | nil => by_cases h : n = k <;> simp [envDelete, envGet, mapGet_nil, h]
  | cons p rest ih =>
    obtain ⟨k', v'⟩ := p
    by_cases hpk : k' = k
    · have hdel : envDelete ((k', v') :: rest) k = envDelete rest k := by
        simp [envDelete, List.filter_cons, hpk]
      rw [hdel, ih, envGet_cons]
      by_cases hn : n = k
      · simp [hn]
      · have h2 : ¬ k' = n := fun hh => hn (by rw [← hh, hpk])
        simp [hn, h2]
    · have hdel : envDelete ((k', v') :: rest) k = (k', v') :: envDelete rest k := by
        simp [envDelete, List.filter_cons, hpk]
      rw [hdel, envGet_cons, envGet_cons, ih]
      by_cases hk'n : k' = n
      · have hn : ¬ n = k := fun hh => hpk (by rw [hk'n, hh])
        simp [hk'n, hn]
      · by_cases hn : n = k <;> simp [hk'n, hn, hpk]

theorem envGet_envSet (env : Env) (k v n : String) :
    envGet (envSet env k v) n = if n = k then some v else envGet env n :=
  mapGet_mapSet env k v n

/-! ## Reversal-closure lemmas -/

/-- Keys touched by a list of recorded updates. -/
def updKeys (updates : List EnvUpdate) : List String :=
  updates.map EnvUpdate.key

theorem updKeys_cons (u : EnvUpdate) (rest : List EnvUpdate) :
    updKeys (u :: rest) = u.key :: updKeys rest := rfl

theorem updKeys_append (a b : List EnvUpdate) :
    updKeys (a ++ b) = updKeys a ++ updKeys b := by
  simp [updKeys]

theorem revertUpdates_cons (u : EnvUpdate) (rest : List EnvUpdate) (e : Env) :
    revertUpdates (u :: rest) e = revertUpdates rest (applyRevert e u) := rfl

theorem revertUpdates_append (a b : List EnvUpdate) (e : Env) :
    revertUpdates (a ++ b) e = revertUpdates b (revertUpdates a e) := by
  simp [revertUpdates, List.foldl_append]

theorem envGet_applyRevert_ne (e : Env) (u : EnvUpdate) (k : String) (h : k ≠ u.key) :
    envGet (applyRevert e u) k = envGet e k := by
  cases hp : u.prev with
  | none => simp [applyRevert, hp, envGet_envDelete, h]
  | some v => simp [applyRevert, hp, envGet_envSet, h]

/-- A key outside the recorded updates is untouched by the reversal. -/
theorem envGet_revertUpdates_not_mem (updates : List EnvUpdate) (e : Env) (k : String)
    (h : k ∉ updKeys updates) :
    envGet (revertUpdates updates e) k = envGet e k := by
  induction updates generalizing e with
  | nil => rfl
  | cons u rest ih =>
    rw [updKeys_cons] at h
    have h1 : k ≠ u.key := fun hh => h (by rw [hh]; exact List.mem_cons_self _ _)
    have h2 : k ∉ updKeys rest := fun hh => h (List.mem_cons_of_mem _ hh)
    rw [revertUpdates_cons, ih _ h2, envGet_applyRevert_ne e u k h1]

/-- At a key inside the recorded updates, the reversal result does not
depend on the environment it is applied to. -/
theorem envGet_revertUpdates_mem (updates : List EnvUpdate) (k : String)
    (h : k ∈ updKeys updates) (e₁ e₂ : Env) :
    envGet (revertUpdates updates e₁) k = envGet (revertUpdates updates e₂) k := by
  induction updates generalizing e₁ e₂ with
  | nil => rw [updKeys] at h; simp at h
  | cons u rest ih =>
    rw [revertUpdates_cons, revertUpdates_cons]
    by_cases hmem : k ∈ updKeys rest
    · exact ih hmem _ _
    · rw [updKeys_cons] at h
      rcases List.mem_cons.mp h with h' | h'
      · rw [envGet_revertUpdates_not_mem rest _ k hmem,
            envGet_revertUpdates_not_mem rest _ k hmem]
        cases hp : u.prev with
        | none => simp [applyRevert, hp, envGet_envDelete, h']
        | some v => simp [applyRevert, hp, envGet_envSet, h']
      · exact absurd h' hmem

/-! ## The activation invariant

Threaded through the activation loops: (1) reverting the recorded updates
on the current environment restores the initial one at every key, (2) every
recorded key is currently truthy (so it can never be pushed twice), and
(3) every recorded previous value is the initial value of its key. -/

def EnvInv (env0 : Env) (st : ApplyState) : Prop :=
  (∀ k, envGet (revertUpdates st.2 st.1) k = envGet env0 k) ∧
  (∀ u ∈ st.2, envTruthy st.1 u.key = true) ∧
  (∀ u ∈ st.2, u.prev = envGet env0 u.key)

theorem envInv_init (env0 : Env) : EnvInv env0 (env0, []) :=
  ⟨fun _ => rfl, fun u hu => absurd hu (List.not_mem_nil u),
    fun u hu => absurd hu (List.not_mem_nil u)⟩

theorem not_mem_updKeys_of_not_truthy {env0 : Env} {st : ApplyState}
    (h : EnvInv env0 st) {k : String} (hk : envTruthy st.1 k = false) :
    k ∉ updKeys st.2 := by
  intro hmem
  rcases List.mem_map.mp hmem with ⟨u, hu, hkey⟩
  have htrue := h.2.1 u hu
  rw [hkey] at htrue
  rw [htrue] at hk
  exact absurd hk (by decide)

theorem envInv_pushSet {env0 : Env} {st : ApplyState} (h : EnvInv env0 st)
    {k v : String} (hk : envTruthy st.1 k = false) (hv : v ≠ "") :
    EnvInv env0 (pushSet st k v) := by
  have hnotmem : k ∉ updKeys st.2 := not_mem_updKeys_of_not_truthy h hk
  have hgetk : envGet st.1 k = envGet env0 k := by
    rw [← h.1 k, envGet_revertUpdates_not_mem st.2 st.1 k hnotmem]
  have hsingle : ∀ (e : Env) (u : EnvUpdate), revertUpdates [u] e = applyRevert e u :=
    fun _ _ => rfl
  refine ⟨?_, ?_, ?_⟩
  · intro k'
    show envGet (revertUpdates (st.2 ++ [⟨k, envGet st.1 k⟩]) (envSet st.1 k v)) k'
      = envGet env0 k'
    rw [revertUpdates_append, hsingle]
    by_cases hkk : k' = k
    · subst hkk
      cases hp : envGet st.1 k' with
      | none =>
        simp [applyRevert, envGet_envDelete]
        rw [← hgetk, hp]
      | some w =>
        simp [applyRevert, envGet_envSet]
        rw [← hgetk, hp]
    · rw [envGet_applyRevert_ne _ _ _ hkk]
      by_cases hmem : k' ∈ updKeys st.2
      · rw [envGet_revertUpdates_mem st.2 k' hmem (envSet st.1 k v) st.1]
        exact h.1 k'
      · rw [envGet_revertUpdates_not_mem st.2 _ k' hmem, envGet_envSet, if_neg hkk,
          ← h.1 k', envGet_revertUpdates_not_mem st.2 _ k' hmem]
  · intro u hu
    rcases List.mem_append.mp hu with hu | hu
    · have h2 := h.2.1 u hu
      have hne : u.key ≠ k := fun hh => hnotmem (hh ▸ List.mem_map.mpr ⟨u, hu, rfl⟩)
      show envTruthy (envSet st.1 k v) u.key = true
      simp only [envTruthy] at h2 ⊢
      rw [envGet_envSet, if_neg hne]
      exact h2
    · rw [List.mem_singleton] at hu
      subst hu
      show envTruthy (envSet st.1 k v) k = true
      simp [envTruthy, envGet_envSet, hv]
  · intro u hu
    rcases List.mem_append.mp hu with hu | hu
    · exact h.2.2 u hu
    · rw [List.mem_singleton] at hu
      subst hu
      show envGet st.1 k = envGet env0 k
      exact hgetk

theorem envInv_applyEnvPairs {env0 : Env} (pairs : List (String × String)) :
    ∀ st : ApplyState, EnvInv env0 st → EnvInv env0 (applyEnvPairs st pairs) := by
  induction pairs with
  | nil => exact fun st h => h
  | cons p rest ih =>
    intro st h
    rw [show applyEnvPairs st (p :: rest)
        = applyEnvPairs (if p.2 = "" ∨ envTruthy st.1 p.1 = true then st
            else pushSet st p.1 p.2) rest from rfl]
    by_cases hc : p.2 = "" ∨ envTruthy st.1 p.1 = true
    · rw [if_pos hc]
      exact ih st h
    · rw [if_neg hc]
      push_neg at hc
      have hfalse : envTruthy st.1 p.1 = false := by
        cases hb : envTruthy st.1 p.1
        · rfl
        · exact absurd hb hc.2
      exact ih _ (envInv_pushSet h hfalse hc.1)

theorem envInv_applyPrimaryEnv {env0 : Env} {st : ApplyState} (h : EnvInv env0 st)
    (pe apiKey : Option String) : EnvInv env0 (applyPrimaryEnv st pe apiKey) := by
  rw [applyPrimaryEnv]
  by_cases hc : optStrTruthy pe = true ∧ optStrTruthy apiKey = true
      ∧ envTruthy st.1 (pe.getD "") = false
  · rw [if_pos hc]
    refine envInv_pushSet h hc.2.2 ?_
    have hkey := hc.2.1
    simp [optStrTruthy] at hkey
    exact hkey
  · rw [if_neg hc]
    exact h

theorem envInv_applyEntry {env0 : Env} (config : Option ClawdisConfig)
    {st : ApplyState} (h : EnvInv env0 st) (entry : SkillEntry) :
    EnvInv env0 (applyEntryOverrides config st entry) := by
  cases hcfg : resolveSkillConfig config (resolveSkillKey entry) with
  | none => simpa [applyEntryOverrides, hcfg] using h
  | some sc =>
    cases hsc : sc.env with
    | none =>
      simpa [applyEntryOverrides, hcfg, hsc] using
        envInv_applyPrimaryEnv h (entry.clawdis.bind ClawdisSkillMetadata.primaryEnv) sc.apiKey
    | some pairs =>
      simpa [applyEntryOverrides, hcfg, hsc] using
        envInv_applyPrimaryEnv (envInv_applyEnvPairs pairs st h)
          (entry.clawdis.bind ClawdisSkillMetadata.primaryEnv) sc.apiKey

theorem envInv_applySnapshotSkill {env0 : Env} (config : Option ClawdisConfig)
    {st : ApplyState} (h : EnvInv env0 st) (skill : SnapshotSkill) :
    EnvInv env0 (applySnapshotSkill config st skill) := by
  cases hcfg : resolveSkillConfig config skill.name with
  | none => simpa [applySnapshotSkill, hcfg] using h
  | some sc =>
    cases hsc : sc.env with
    | none =>
      simpa [applySnapshotSkill, hcfg, hsc] using
        envInv_applyPrimaryEnv h skill.primaryEnv sc.apiKey
    | some pairs =>
      simpa [applySnapshotSkill, hcfg, hsc] using
        envInv_applyPrimaryEnv (envInv_applyEnvPairs pairs st h) skill.primaryEnv sc.apiKey

theorem envInv_applySkillEnvOverrides (skills : List SkillEntry)
    (config : Option ClawdisConfig) (env : Env) :
    EnvInv env (applySkillEnvOverrides skills config env) := by
  have hgen : ∀ st : ApplyState, EnvInv env st →
      EnvInv env (skills.foldl (applyEntryOverrides config) st) := by
    induction skills with
    | nil => exact fun st h => h
    | cons e rest ih => exact fun st h => ih _ (envInv_applyEntry config h e)
  exact hgen (env, []) (envInv_init env)

theorem envInv_applySnapshot (snapshot : Option SkillSnapshot)
    (config : Option ClawdisConfig) (env : Env) :
    EnvInv env (applySkillEnvOverridesFromSnapshot snapshot config env) := by
  cases snapshot with
  | none => exact envInv_init env
  | some snap =>
    have hgen : ∀ st : ApplyState, EnvInv env st →
        EnvInv env (snap.skills.foldl (applySnapshotSkill config) st) := by
      induction snap.skills with
      | nil => exact fun st h => h
      | cons s rest ih => exact fun st h => ih _ (envInv_applySnapshotSkill config h s)
    exact hgen (env, []) (envInv_init env)

/-- C3: activating skill environment overrides and then running the
returned reversal restores the process environment exactly — every
variable is present if and only if it was present before, with its exact
prior value (already-set, previously-unset and credential injections
alike). -/
theorem applySkillEnvOverrides_revert_restores (skills : List SkillEntry)
    (config : Option ClawdisConfig) (env : Env) (k : String) :
    envGet
        (revertUpdates (applySkillEnvOverrides skills config env).2
          (applySkillEnvOverrides skills config env).1) k
      = envGet env k :=
  (envInv_applySkillEnvOverrides skills config env).1 k

/-! ## C8: snapshot-based activation versus entry-based activation -/

theorem applySnapshotSkill_eq_applyEntry (config : Option ClawdisConfig)
    (st : ApplyState) (e : SkillEntry) (hk : resolveSkillKey e = e.skill.name) :
    applySnapshotSkill config st
        ⟨e.skill.name, e.clawdis.bind ClawdisSkillMetadata.primaryEnv⟩
      = applyEntryOverrides config st e := by
  simp only [applySnapshotSkill, applyEntryOverrides, hk]

theorem foldl_snapshot_eq_entries (config : Option ClawdisConfig) :
    ∀ (entries : List SkillEntry) (st : ApplyState),
      (∀ e ∈ entries, resolveSkillKey e = e.skill.name) →
      (buildSnapshotSkills entries).foldl (applySnapshotSkill config) st
        = entries.foldl (applyEntryOverrides config) st := by
  intro entries
  induction entries with
  | nil => intro st _; rfl
  | cons e rest ih =>
    intro st hkeys
    have hc : (buildSnapshotSkills (e :: rest)).foldl (applySnapshotSkill config) st
        = (buildSnapshotSkills rest).foldl (applySnapshotSkill config)
            (applySnapshotSkill config st
              ⟨e.skill.name, e.clawdis.bind ClawdisSkillMetadata.primaryEnv⟩) := rfl
    rw [hc, applySnapshotSkill_eq_applyEntry config st e (hkeys e (List.mem_cons_self e rest))]
    exact ih _ (fun x hx => hkeys x (List.mem_cons_of_mem _ hx))

/-- C8 (amended): when no entry overrides its configuration lookup key
(`skillKey` absent or equal to the skill name), activating from the
snapshot built from the entries performs exactly the same environment
mutations — the same final environment and the same recorded updates — as
activating from the entries themselves. -/
theorem applySnapshot_eq_applyEntries (entries : List SkillEntry)
    (config : Option ClawdisConfig) (env : Env) (p : String)
    (hkeys : ∀ e ∈ entries, resolveSkillKey e = e.skill.name) :
    applySkillEnvOverridesFromSnapshot
        (some { prompt := p, skills := buildSnapshotSkills entries }) config env
      = applySkillEnvOverrides entries config env :=
  foldl_snapshot_eq_entries config entries (env, []) hkeys

/-- A skill whose metadata overrides the configuration lookup key. -/
def c8Entry : SkillEntry :=
  { skill := { name := "a", filePath := "f", description := "d" }
    frontmatter := []
    clawdis := some
      { always := none, skillKey := some "b", primaryEnv := none, emoji := none,
        homepage := none, requires := none, install := none } }

/-- The same skill without a `skillKey` override. -/
def c8EntryPlain : SkillEntry :=
  { skill := { name := "b", filePath := "f", description := "d" }
    frontmatter := []
    clawdis := none }

def c8Config : ClawdisConfig :=
  { skills := some [("b", { enabled := none, env := some [("K", "v")], apiKey := none })]
    skillsInstall := none
    tree := ConfigValue.vnull }

/-- C8 counterexample: for a skill named `a` whose metadata sets
`skillKey = "b"`, with configuration under key `b` injecting `K`,
`applySkillEnvOverrides` injects `K` but the snapshot-based variant (which
looks the configuration up by skill name) does not: the two variants do
not perform the same environment mutations. -/
theorem c8_counterexample :
    envGet (applySkillEnvOverrides [c8Entry] (some c8Config) []).1 "K" = some "v" ∧
    envGet (applySkillEnvOverridesFromSnapshot
        (some { prompt := "", skills := buildSnapshotSkills [c8Entry] })
        (some c8Config) []).1 "K" = none := by
  constructor <;> rfl

/-- Witness for the amended C8 at a concrete input without a `skillKey`
override. -/
theorem applySnapshot_eq_applyEntries_witness :
    applySkillEnvOverridesFromSnapshot
        (some { prompt := "", skills := buildSnapshotSkills [c8EntryPlain] })
        (some c8Config) []
      = applySkillEnvOverrides [c8EntryPlain] (some c8Config) [] :=
  applySnapshot_eq_applyEntries [c8EntryPlain] (some c8Config) [] ""
    (by intro e he; rw [List.mem_singleton] at he; subst he; rfl)

/-! ## C10: empty-string environment values behave as unset -/

theorem envInv_get_empty {env0 : Env} {st : ApplyState} (h : EnvInv env0 st)
    (k : String) (hk : envGet st.1 k = some "") : envGet env0 k = some "" := by
  have htr : envTruthy st.1 k = false := by simp [envTruthy, hk]
  have hnm := not_mem_updKeys_of_not_truthy h htr
  rw [← h.1 k, envGet_revertUpdates_not_mem st.2 st.1 k hnm, hk]

theorem envReqLoop_congr (env₁ env₂ : Env) (sc : Option SkillConfig)
    (meta : Option ClawdisSkillMetadata)
    (h : ∀ k, envTruthy env₁ k = envTruthy env₂ k) :
    ∀ l, envReqLoop env₁ sc meta l = envReqLoop env₂ sc meta l := by
  intro l
  induction l with
  | nil => rfl
  | cons x rest ih => simp [envReqLoop, h x, ih]

theorem shouldIncludeSkill_env_congr (hasBin : String → Bool) (env₁ env₂ : Env)
    (config : Option ClawdisConfig) (entry : SkillEntry)
    (h : ∀ k, envTruthy env₁ k = envTruthy env₂ k) :
    shouldIncludeSkill hasBin env₁ config entry
      = shouldIncludeSkill hasBin env₂ config entry := by
  simp only [shouldIncludeSkill, envReqLoop_congr env₁ env₂ _ _ h]

theorem envTruthy_set_empty_eq_delete (env : Env) (E k : String) :
    envTruthy (envSet env E "") k = envTruthy (envDelete env E) k := by
  by_cases hk : k = E <;>
    simp [envTruthy, envGet_envSet, envGet_envDelete, hk]

/-- C10: (1)–(2) neither activation variant ever leaves a variable holding
the empty string that did not already hold it (configured overrides with
empty values are never injected); (3) for the eligibility filter an
empty-valued process variable is interchangeable with an absent one;
(4) every recorded update stores the exact prior value of its key (an
empty string is recorded as `some ""`), and the injected value is truthy;
(5) a variable currently holding `""` is overwritten by a configured
non-empty override, with `some ""` recorded as its prior value. -/
theorem emptyString_treated_as_unset
    (skills : List SkillEntry) (snapshot : Option SkillSnapshot)
    (config : Option ClawdisConfig) (env : Env)
    (hasBin : String → Bool) (entry : SkillEntry) (E : String) :
    (∀ k, envGet (applySkillEnvOverrides skills config env).1 k = some "" →
      envGet env k = some "") ∧
    (∀ k, envGet (applySkillEnvOverridesFromSnapshot snapshot config env).1 k = some "" →
      envGet env k = some "") ∧
    (shouldIncludeSkill hasBin (envSet env E "") config entry
      = shouldIncludeSkill hasBin (envDelete env E) config entry) ∧
    (∀ u ∈ (applySkillEnvOverrides skills config env).2,
      u.prev = envGet env u.key ∧
      envTruthy (applySkillEnvOverrides skills config env).1 u.key = true) ∧
    (∀ sc v, resolveSkillConfig config (resolveSkillKey entry) = some sc →
      sc.env = some [(E, v)] → v ≠ "" → envGet env E = some "" →
      envGet (applySkillEnvOverrides [entry] config env).1 E = some v ∧
      (⟨E, some ""⟩ : EnvUpdate) ∈ (applySkillEnvOverrides [entry] config env).2) := by
  refine ⟨?_, ?_, ?_, ?_, ?_⟩
  · exact fun k hk => envInv_get_empty (envInv_applySkillEnvOverrides skills config env) k hk
  · exact fun k hk => envInv_get_empty (envInv_applySnapshot snapshot config env) k hk
  · exact shouldIncludeSkill_env_congr hasBin _ _ config entry
      (envTruthy_set_empty_eq_delete env E)
  · intro u hu
    exact ⟨(envInv_applySkillEnvOverrides skills config env).2.2 u hu,
      (envInv_applySkillEnvOverrides skills config env).2.1 u hu⟩
  · intro sc v hcfg hsc hv hE
    have htr : envTruthy env E = false := by simp [envTruthy, hE]
    have hpairs : applyEnvPairs (env, []) [(E, v)]
        = (envSet env E v, [⟨E, some ""⟩]) := by
      have hcond : ¬ (v = "" ∨ envTruthy env E = true) := by
        push_neg
        exact ⟨hv, by simp [htr]⟩
      show (if v = "" ∨ envTruthy env E = true then ((env : Env), ([] : List EnvUpdate))
          else pushSet (env, []) E v) = _
      rw [if_neg hcond]
      show (envSet env E v, ([⟨E, envGet env E⟩] : List EnvUpdate))
          = (envSet env E v, ([⟨E, some ""⟩] : List EnvUpdate))
      rw [hE]
    have hstep : applySkillEnvOverrides [entry] config env
        = applyPrimaryEnv (envSet env E v, [⟨E, some ""⟩])
            (entry.clawdis.bind ClawdisSkillMetadata.primaryEnv) sc.apiKey := by
      show applyEntryOverrides config (env, []) entry = _
      simp only [applyEntryOverrides, hcfg, hsc, hpairs]
    rw [hstep, applyPrimaryEnv]
    by_cases hc : optStrTruthy (entry.clawdis.bind ClawdisSkillMetadata.primaryEnv) = true
        ∧ optStrTruthy sc.apiKey = true
        ∧ envTruthy (envSet env E v, ([⟨E, some ""⟩] : List EnvUpdate)).1
            ((entry.clawdis.bind ClawdisSkillMetadata.primaryEnv).getD "") = false
    · rw [if_pos hc]
      have hpe : (entry.clawdis.bind ClawdisSkillMetadata.primaryEnv).getD "" ≠ E := by
        intro hh
        have hfalse := hc.2.2
        rw [hh] at hfalse
        simp [envTruthy, envGet_envSet, hv] at hfalse
      constructor
      · show envGet (envSet (envSet env E v) _ _) E = some v
        rw [envGet_envSet, if_neg (fun hh => hpe hh.symm), envGet_envSet, if_pos rfl]
      · exact List.mem_append.mpr (Or.inl (List.mem_singleton.mpr rfl))
    · rw [if_neg hc]
      constructor
      · show envGet (envSet env E v) E = some v
        rw [envGet_envSet, if_pos rfl]
      · exact List.mem_singleton.mpr rfl

/-- Witness for C10 at a concrete input: a variable holding `""` is
overwritten by a configured non-empty override, with `some ""` recorded. -/
theorem emptyString_treated_as_unset_witness :
    envGet (applySkillEnvOverrides [c8EntryPlain] (some c8Config) [("K", "")]).1 "K" = some "v" ∧
    (⟨"K", some ""⟩ : EnvUpdate) ∈ (applySkillEnvOverrides [c8EntryPlain] (some c8Config) [("K", "")]).2 :=
  (emptyString_treated_as_unset [c8EntryPlain] none (some c8Config) [("K", "")]
      (fun _ => false) c8EntryPlain "K").2.2.2.2
    { enabled := none, env := some [("K", "v")], apiKey := none } "v"
    (by rfl) (by rfl) (by decide) (by rfl)

/-! ## C2 and C5: eligibility decisions -/

theorem binsLoop_eq_true_iff (hasBin : String → Bool) (l : List String) :
    binsLoop hasBin l = true ↔ ∀ b ∈ l, hasBin b = true := by
  induction l with
  | nil => simp [binsLoop]
  | cons b rest ih => by_cases hb : hasBin b <;> simp [binsLoop, hb, ih]

theorem configLoop_eq_true_iff (config : Option ClawdisConfig) (l : List String) :
    configLoop config l = true ↔
      ∀ p ∈ l, isConfigPathTruthy (config.map ClawdisConfig.tree) p = true := by
  induction l with
  | nil => simp [configLoop]
  | cons p rest ih =>
    by_cases hp : isConfigPathTruthy (config.map ClawdisConfig.tree) p <;>
      simp [configLoop, hp, ih]

theorem envReqLoop_eq_true_iff (env : Env) (sc : Option SkillConfig)
    (meta : Option ClawdisSkillMetadata) (l : List String) :
    envReqLoop env sc meta l = true ↔
      ∀ E ∈ l, envTruthy env E = true
        ∨ optStrTruthy ((sc.bind SkillConfig.env).bind (fun pairs => mapGet pairs E)) = true
        ∨ (optStrTruthy (sc.bind SkillConfig.apiKey) = true
            ∧ (meta.bind ClawdisSkillMetadata.primaryEnv) = some E) := by
  induction l with
  | nil => simp [envReqLoop]
  | cons E rest ih =>
    by_cases h1 : envTruthy env E = true
    · simp [envReqLoop, h1, ih]
    · by_cases h2 : optStrTruthy ((sc.bind SkillConfig.env).bind (fun pairs => mapGet pairs E)) = true
      · simp [envReqLoop, h1, h2, ih]
      · by_cases h3 : optStrTruthy (sc.bind SkillConfig.apiKey) = true
            ∧ (meta.bind ClawdisSkillMetadata.primaryEnv) = some E
        · have hcond : (optStrTruthy (sc.bind SkillConfig.apiKey)
              && decide ((meta.bind ClawdisSkillMetadata.primaryEnv) = some E)) = true := by
            rw [Bool.and_eq_true, decide_eq_true_eq]
            exact h3
          simp [envReqLoop, h1, h2, hcond, ih, h3]
        · have hcond : (optStrTruthy (sc.bind SkillConfig.apiKey)
              && decide ((meta.bind ClawdisSkillMetadata.primaryEnv) = some E)) = false := by
            rw [Bool.and_eq_false_iff]
            by_cases ha : optStrTruthy (sc.bind SkillConfig.apiKey) = true
            · right
              rw [decide_eq_false_iff_not]
              exact fun hp => h3 ⟨ha, hp⟩
            · left
              cases hb : optStrTruthy (sc.bind SkillConfig.apiKey)
              · rfl
              · exact absurd hb ha
          simp [envReqLoop, h1, h2, hcond, h3]

theorem ifChain_eq_true_iff (c1 c2 c3 : Prop) [Decidable c1] [Decidable c2] [Decidable c3] :
    ((if c1 then false else if c2 then false else if c3 then false else true) = true)
      ↔ (¬ c1 ∧ ¬ c2 ∧ ¬ c3) := by
  by_cases h1 : c1 <;> by_cases h2 : c2 <;> by_cases h3 : c3 <;> simp [h1, h2, h3]

theorem guard_not_fail_iff (n : Nat) (b : Bool) (hnil : n = 0 → b = true) :
    (¬ (0 < n ∧ b = false)) ↔ b = true := by
  constructor
  · intro h
    cases hn : n with
    | zero => exact hnil hn
    | succ m =>
      cases hb : b with
      | false => exact absurd ⟨by omega, hb⟩ (hn ▸ h)
      | true => rfl
  · intro h hc
    rw [h] at hc
    exact absurd hc.2 (by simp)

/-- C2: the eligibility rules apply in fixed priority — a per-skill
configuration with `enabled = false` excludes the skill even when its
metadata declares `always = true`; otherwise `always = true` includes the
skill unconditionally, all binary/env/config requirement checks skipped. -/
theorem shouldIncludeSkill_disable_always (hasBin : String → Bool) (env : Env)
    (config : Option ClawdisConfig) (entry : SkillEntry) :
    (((resolveSkillConfig config (resolveSkillKey entry)).bind SkillConfig.enabled
        = some false) →
      shouldIncludeSkill hasBin env config entry = false) ∧
    (((resolveSkillConfig config (resolveSkillKey entry)).bind SkillConfig.enabled
        ≠ some false) →
      (entry.clawdis.bind ClawdisSkillMetadata.always = some true) →
      shouldIncludeSkill hasBin env config entry = true) := by
  constructor
  · intro h
    simp [shouldIncludeSkill, h]
  · intro h1 h2
    simp [shouldIncludeSkill, h1, h2]

/-- A skill declaring `always: true` together with unmet binary, env and
config requirements. -/
def c2Entry : SkillEntry :=
  { skill := { name := "s", filePath := "f", description := "d" }
    frontmatter := []
    clawdis := some
      { always := some true, skillKey := none, primaryEnv := none, emoji := none,
        homepage := none
        requires := some { bins := ["missing-bin"], env := ["MISSING_ENV"], config := ["missing.path"] }
        install := none } }

def c2ConfigDisabled : ClawdisConfig :=
  { skills := some [("s", { enabled := some false, env := none, apiKey := none })]
    skillsInstall := none
    tree := ConfigValue.vnull }

/-- Witness for C2: the always-on skill with every requirement unmet is
included, yet excluded once its configuration sets `enabled = false`. -/
theorem shouldIncludeSkill_disable_always_witness :
    shouldIncludeSkill (fun _ => false) [] (some c2ConfigDisabled) c2Entry = false ∧
    shouldIncludeSkill (fun _ => false) [] none c2Entry = true :=
  ⟨(shouldIncludeSkill_disable_always (fun _ => false) [] (some c2ConfigDisabled) c2Entry).1
      (by rfl),
   (shouldIncludeSkill_disable_always (fun _ => false) [] none c2Entry).2
      (by decide) (by rfl)⟩

/-- C5 (amended): for a skill that is not disabled and not always-on, the
eligibility decision holds exactly when all three requirement lists are
satisfied, and the environment requirement for a name `E` is satisfied iff
the process has `E` set to a non-empty value, or the per-skill
configuration's `env` table provides a non-empty value for `E`, or `E` is
the declared `primaryEnv` and the configuration supplies a non-empty
`apiKey`; in particular a skill requiring a variable that is unset (or set
to the empty string) with no per-skill configuration is excluded. -/
theorem shouldIncludeSkill_env_requirement (hasBin : String → Bool) (env : Env)
    (config : Option ClawdisConfig) (entry : SkillEntry)
    (hdis : (resolveSkillConfig config (resolveSkillKey entry)).bind SkillConfig.enabled
      ≠ some false)
    (halw : entry.clawdis.bind ClawdisSkillMetadata.always ≠ some true) :
    (shouldIncludeSkill hasBin env config entry = true ↔
      ((∀ b ∈ ((entry.clawdis.bind ClawdisSkillMetadata.requires).map SkillRequires.bins).getD [],
          hasBin b = true) ∧
       (∀ E ∈ ((entry.clawdis.bind ClawdisSkillMetadata.requires).map SkillRequires.env).getD [],
          envTruthy env E = true
          ∨ optStrTruthy
              (((resolveSkillConfig config (resolveSkillKey entry)).bind SkillConfig.env).bind
                (fun pairs => mapGet pairs E)) = true
          ∨ (optStrTruthy
              ((resolveSkillConfig config (resolveSkillKey entry)).bind SkillConfig.apiKey) = true
              ∧ entry.clawdis.bind ClawdisSkillMetadata.primaryEnv = some E)) ∧
       (∀ p ∈ ((entry.clawdis.bind ClawdisSkillMetadata.requires).map SkillRequires.config).getD [],
          isConfigPathTruthy (config.map ClawdisConfig.tree) p = true))) ∧
    (resolveSkillConfig config (resolveSkillKey entry) = none →
      ∀ E ∈ ((entry.clawdis.bind ClawdisSkillMetadata.requires).map SkillRequires.env).getD [],
        envTruthy env E = false →
        shouldIncludeSkill hasBin env config entry = false) := by
  have hiff : shouldIncludeSkill hasBin env config entry = true ↔
      ((∀ b ∈ ((entry.clawdis.bind ClawdisSkillMetadata.requires).map SkillRequires.bins).getD [],
          hasBin b = true) ∧
       (∀ E ∈ ((entry.clawdis.bind ClawdisSkillMetadata.requires).map SkillRequires.env).getD [],
          envTruthy env E = true
          ∨ optStrTruthy
              (((resolveSkillConfig config (resolveSkillKey entry)).bind SkillConfig.env).bind
                (fun pairs => mapGet pairs E)) = true
          ∨ (optStrTruthy
              ((resolveSkillConfig config (resolveSkillKey entry)).bind SkillConfig.apiKey) = true
              ∧ entry.clawdis.bind ClawdisSkillMetadata.primaryEnv = some E)) ∧
       (∀ p ∈ ((entry.clawdis.bind ClawdisSkillMetadata.requires).map SkillRequires.config).getD [],
          isConfigPathTruthy (config.map ClawdisConfig.tree) p = true)) := by
    simp only [shouldIncludeSkill, hdis, halw, if_false, ite_false]
    rw [ifChain_eq_true_iff]
    rw [guard_not_fail_iff _ _
        (fun h => by rw [List.length_eq_zero.mp h]; rfl),
      guard_not_fail_iff _ _
        (fun h => by rw [List.length_eq_zero.mp h]; rfl),
      guard_not_fail_iff _ _
        (fun h => by rw [List.length_eq_zero.mp h]; rfl)]
    rw [binsLoop_eq_true_iff, envReqLoop_eq_true_iff, configLoop_eq_true_iff]
  refine ⟨hiff, ?_⟩
  intro hnone E hmem hfalse
  cases hres : shouldIncludeSkill hasBin env config entry with
  | false => rfl
  | true =>
    have hall := (hiff.mp hres).2.1 E hmem
    rcases hall with h | h | h
    · rw [hfalse] at h
      exact absurd h (by decide)
    · rw [hnone] at h
      simp [optStrTruthy] at h
    · rw [hnone] at h
      simp [optStrTruthy] at h

/-- A skill requiring the environment variable `E`, with no other
requirements and no `always` flag. -/
def c5Entry : SkillEntry :=
  { skill := { name := "weather", filePath := "f", description := "d" }
    frontmatter := []
    clawdis := some
      { always := none, skillKey := none, primaryEnv := none, emoji := none,
        homepage := none
        requires := some { bins := [], env := ["E"], config := [] }
        install := none } }

/-- C5 counterexample: with the process environment holding `E` set to the
empty string and no per-skill configuration, the claimed characterization
("satisfied iff the process environment has `E` set, or ...") says the
requirement is satisfied, but the code excludes the skill: an empty-valued
variable does not satisfy the requirement. -/
theorem c5_counterexample :
    envGet [("E", "")] "E" = some "" ∧
    shouldIncludeSkill (fun _ => true) [("E", "")] none c5Entry = false := by
  constructor <;> rfl

/-- Witness for the amended C5: a non-empty value satisfies the
requirement; with the variable absent and no per-skill configuration the
skill is excluded. -/
theorem shouldIncludeSkill_env_requirement_witness :
    shouldIncludeSkill (fun _ => true) [("E", "x")] none c5Entry = true ∧
    shouldIncludeSkill (fun _ => true) [] none c5Entry = false :=
  ⟨(shouldIncludeSkill_env_requirement (fun _ => true) [("E", "x")] none c5Entry
      (by decide) (by decide)).1.mpr (by decide),
   (shouldIncludeSkill_env_requirement (fun _ => true) [] none c5Entry
      (by decide) (by decide)).2 (by rfl) "E" (by decide) (by rfl)⟩

/-! ## C1: precedence merge -/

def mapKeys {α β : Type} (m : List (α × β)) : List α := m.map Prod.fst

theorem mem_mapKeys_mapSet {α β : Type} [DecidableEq α] (m : List (α × β)) (k : α) (v : β) (n : α) :
    n ∈ mapKeys (mapSet m k v) ↔ n = k ∨ n ∈ mapKeys m := by
  induction m with
  | nil => simp [mapSet, mapKeys]
  | cons p rest ih =>
    obtain ⟨k', v'⟩ := p
    have hunf : mapSet ((k', v') :: rest) k v =
        if k' = k then (k, v) :: rest else (k', v') :: mapSet rest k v := rfl
    rw [hunf]
    by_cases hk : k' = k
    · rw [if_pos hk]
      rw [show mapKeys ((k, v) :: rest) = k :: mapKeys rest from rfl,
        show mapKeys ((k', v') :: rest) = k' :: mapKeys rest from rfl,
        List.mem_cons, List.mem_cons, hk]
      tauto
    · rw [if_neg hk]
      rw [show mapKeys ((k', v') :: mapSet rest k v) = k' :: mapKeys (mapSet rest k v) from rfl,
        show mapKeys ((k', v') :: rest) = k' :: mapKeys rest from rfl,
        List.mem_cons, List.mem_cons, ih]
      tauto

theorem nodup_mapKeys_mapSet {α β : Type} [DecidableEq α] (m : List (α × β)) (k : α) (v : β)
    (h : (mapKeys m).Nodup) : (mapKeys (mapSet m k v)).Nodup := by
  induction m with
  | nil => simp [mapSet, mapKeys]
  | cons p rest ih =>
    obtain ⟨k', v'⟩ := p
    have hunf : mapSet ((k', v') :: rest) k v =
        if k' = k then (k, v) :: rest else (k', v') :: mapSet rest k v := rfl
    rw [hunf]
    rw [show mapKeys ((k', v') :: rest) = k' :: mapKeys rest from rfl] at h
    rcases List.nodup_cons.mp h with ⟨hk', hrest⟩
    by_cases hk : k' = k
    · subst hk
      rw [if_pos rfl, show mapKeys ((k', v) :: rest) = k' :: mapKeys rest from rfl]
      exact List.nodup_cons.mpr ⟨hk', hrest⟩
    · rw [if_neg hk, show mapKeys ((k', v') :: mapSet rest k v)
          = k' :: mapKeys (mapSet rest k v) from rfl]
      refine List.nodup_cons.mpr ⟨?_, ih hrest⟩
      intro hmem
      rcases (mem_mapKeys_mapSet rest k v k').mp hmem with h | h
      · exact hk h
      · exact hk' h

theorem nodup_mapKeys_insertAll (skills : List Skill) (m : List (String × Skill))
    (h : (mapKeys m).Nodup) : (mapKeys (insertAll skills m)).Nodup := by
  induction skills generalizing m with
  | nil => exact h
  | cons s rest ih => exact ih _ (nodup_mapKeys_mapSet m s.name s h)

theorem option_or_none {α : Type} (o : Option α) : o.or none = o := by
  cases o <;> rfl

theorem mapGet_insertAll (skills : List Skill) (m : List (String × Skill)) (n : String) :
    mapGet (insertAll skills m) n
      = Option.or (skills.reverse.find? (fun s => decide (s.name = n))) (mapGet m n) := by
  induction skills generalizing m with
  | nil => rfl
  | cons s rest ih =>
    have hstep : insertAll (s :: rest) m = insertAll rest (mapSet m s.name s) := rfl
    rw [hstep, ih, List.reverse_cons, List.find?_append, mapGet_mapSet]
    cases hf : rest.reverse.find? (fun s => decide (s.name = n)) with
    | some x => rfl
    | none =>
      by_cases hn : s.name = n
      · have hn' : n = s.name := hn.symm
        have hfind : List.find? (fun x => decide (x.name = n)) [s] = some s := by
          simp [List.find?, hn]
        rw [hfind, if_pos hn']
        rfl
      · have hn' : ¬ n = s.name := fun hh => hn hh.symm
        have hfind : List.find? (fun x => decide (x.name = n)) [s] = none := by
          simp [List.find?, hn]
        rw [hfind, if_neg hn']
        rfl

/-- C1: the merged result of `loadSkillEntries` has exactly one entry per
distinct skill name (the key list has no duplicates), and the record kept
for a name is the one from the highest-precedence source defining it —
workspace over managed over bundled over extra, whole records, with the
last occurrence winning inside one source; the skill entries produced wrap
exactly the merged records. -/
theorem mergeSkills_spec (readFile : String → Option (List Char))
    (resolveMeta : List (List Char × List Char) → Option ClawdisSkillMetadata)
    (extraSkills bundledSkills managedSkills workspaceSkills : List Skill) :
    (mapKeys (mergeSkills extraSkills bundledSkills managedSkills workspaceSkills)).Nodup ∧
    (∀ n : String,
      mapGet (mergeSkills extraSkills bundledSkills managedSkills workspaceSkills) n
        = Option.or (workspaceSkills.reverse.find? (fun s => decide (s.name = n)))
            (Option.or (managedSkills.reverse.find? (fun s => decide (s.name = n)))
              (Option.or (bundledSkills.reverse.find? (fun s => decide (s.name = n)))
                (extraSkills.reverse.find? (fun s => decide (s.name = n)))))) ∧
    ((loadSkillEntries readFile resolveMeta
          extraSkills bundledSkills managedSkills workspaceSkills).map SkillEntry.skill
      = (mergeSkills extraSkills bundledSkills managedSkills workspaceSkills).map Prod.snd) := by
  refine ⟨?_, ?_, ?_⟩
  · exact nodup_mapKeys_insertAll _ _
      (nodup_mapKeys_insertAll _ _
        (nodup_mapKeys_insertAll _ _
          (nodup_mapKeys_insertAll _ _ (by simp [mapKeys]))))
  · intro n
    show mapGet (insertAll workspaceSkills
        (insertAll managedSkills (insertAll bundledSkills (insertAll extraSkills [])))) n = _
    rw [mapGet_insertAll, mapGet_insertAll, mapGet_insertAll, mapGet_insertAll,
      mapGet_nil, option_or_none]
  · simp [loadSkillEntries, mkSkillEntry]

/-! ## C9: frontmatter parsing -/

theorem crToNl_ne_cr (c : Char) : crToNl c ≠ '\r' := by
  rw [crToNl]
  by_cases h : c = '\r' <;> simp [h]

theorem not_cr_mem_normalizeNewlines (l : List Char) : '\r' ∉ normalizeNewlines l := by
  intro h
  rcases List.mem_map.mp h with ⟨c, _, hc⟩
  exact crToNl_ne_cr c hc

theorem normalizeCRLF_of_no_cr : ∀ l : List Char, '\r' ∉ l → normalizeCRLF l = l := by
  intro l
  induction l with
  | nil => intro _; rfl
  | cons c rest ih =>
    intro h
    have hc : c ≠ '\r' := fun hh => h (hh ▸ List.mem_cons_self c rest)
    cases rest with
    | nil => rfl
    | cons d rest2 =>
      have hcond : ¬ (c = '\r' ∧ d = '\n') := fun hh => hc hh.1
      rw [show normalizeCRLF (c :: d :: rest2)
          = if c = '\r' ∧ d = '\n' then '\n' :: normalizeCRLF rest2
            else c :: normalizeCRLF (d :: rest2) from rfl,
        if_neg hcond, ih (fun hh => h (List.mem_cons_of_mem _ hh))]

theorem map_crToNl_of_no_cr : ∀ l : List Char, '\r' ∉ l → l.map crToNl = l := by
  intro l
  induction l with
  | nil => intro _; rfl
  | cons c rest ih =>
    intro h
    have hc : c ≠ '\r' := fun hh => h (hh ▸ List.mem_cons_self c rest)
    rw [List.map_cons, ih (fun hh => h (List.mem_cons_of_mem _ hh)),
      show crToNl c = c from by rw [crToNl, if_neg hc]]

theorem normalizeNewlines_idem (l : List Char) :
    normalizeNewlines (normalizeNewlines l) = normalizeNewlines l := by
  have h := not_cr_mem_normalizeNewlines l
  show (normalizeCRLF (normalizeNewlines l)).map crToNl = normalizeNewlines l
  rw [normalizeCRLF_of_no_cr _ h, map_crToNl_of_no_cr _ h]

theorem singleton_isPrefixOf_iff (c : Char) (l : List Char) :
    ([c].isPrefixOf l = true) ↔ l.head? = some c := by
  cases l with
  | nil => simp [List.isPrefixOf]
  | cons d t =>
    simp [List.isPrefixOf]
    exact eq_comm

theorem singleton_isSuffixOf_iff (c : Char) (l : List Char) :
    ([c].isSuffixOf l = true) ↔ l.getLast? = some c := by
  rw [show ([c].isSuffixOf l) = ([c].reverse.isPrefixOf l.reverse) from rfl,
    show ([c] : List Char).reverse = [c] from rfl,
    singleton_isPrefixOf_iff, List.head?_reverse]

theorem stripQuotes_eq (value : List Char) :
    stripQuotes value =
      if (value.head? = some '"' ∧ value.getLast? = some '"')
          ∨ (value.head? = some '\'' ∧ value.getLast? = some '\'') then
        (value.drop 1).dropLast
      else value := by
  have hcond : ((listStartsWith value ['"'] && listEndsWith value ['"'])
      || (listStartsWith value ['\''] && listEndsWith value ['\''])) = true
    ↔ ((value.head? = some '"' ∧ value.getLast? = some '"')
       ∨ (value.head? = some '\'' ∧ value.getLast? = some '\'')) := by
    simp only [listStartsWith, listEndsWith, Bool.or_eq_true, Bool.and_eq_true,
      singleton_isPrefixOf_iff, singleton_isSuffixOf_iff]
  rw [stripQuotes]
  by_cases hq : (value.head? = some '"' ∧ value.getLast? = some '"')
      ∨ (value.head? = some '\'' ∧ value.getLast? = some '\'')
  · rw [if_pos (hcond.mpr hq), if_pos hq]
  · rw [if_neg (fun hh => hq (hcond.mp hh)), if_neg hq]

/-- C9 (amended): line endings are normalized before parsing (parsing is
invariant under pre-normalization); a non-empty mapping arises only when
the normalized text begins with three dashes (the opening line need not be
exactly three dashes) and a later line beginning with three dashes closes
the block; and values are stripped of one layer of surrounding matching
single or double quotes.  Malformed or absent blocks yield the empty
mapping (`parseFrontmatter` is total). -/
theorem parseFrontmatter_spec (content value : List Char) :
    (parseFrontmatter (normalizeNewlines content) = parseFrontmatter content) ∧
    (parseFrontmatter content ≠ [] →
      listStartsWith (normalizeNewlines content) ['-', '-', '-'] = true ∧
      (indexOfFrom (normalizeNewlines content) ['\n', '-', '-', '-'] 3).isSome = true) ∧
    (stripQuotes value =
      if (value.head? = some '"' ∧ value.getLast? = some '"')
          ∨ (value.head? = some '\'' ∧ value.getLast? = some '\'') then
        (value.drop 1).dropLast
      else value) := by
  refine ⟨?_, ?_, stripQuotes_eq value⟩
  · show (let normalized := normalizeNewlines (normalizeNewlines content)
        if ¬ listStartsWith normalized ['-', '-', '-'] then []
        else
          match indexOfFrom normalized ['\n', '-', '-', '-'] 3 with
          | none => []
          | some endIndex =>
            (splitOnChar '\n' ((normalized.take endIndex).drop 4)).foldl
              (fun fm line =>
                match parseLine line with
                | none => fm
                | some (k, v) => if v = [] then fm else mapSet fm k v)
              []) = parseFrontmatter content
    rw [show normalizeNewlines (normalizeNewlines content) = normalizeNewlines content
      from normalizeNewlines_idem content]
    rfl
  · intro h
    cases hsw : listStartsWith (normalizeNewlines content) ['-', '-', '-'] with
    | false =>
      exfalso
      apply h
      simp [parseFrontmatter, hsw]
    | true =>
      cases h2 : indexOfFrom (normalizeNewlines content) ['\n', '-', '-', '-'] 3 with
      | none =>
        exfalso
        apply h
        simp [parseFrontmatter, hsw, h2]
      | some i => exact ⟨rfl, rfl⟩

/-- C9 counterexample: the text `---x\na: b\n---` does not begin with a
line containing exactly three dashes (its first line is `---x`), yet
`parseFrontmatter` returns the non-empty mapping `a ↦ b`. -/
theorem c9_counterexample :
    (splitOnChar '\n' ("---x\na: b\n---".data)).head? = some ("---x".data) ∧
    parseFrontmatter ("---x\na: b\n---".data) = [("a".data, "b".data)] := by
  constructor <;> decide

/-- Witness for the amended C9 on a well-formed frontmatter block. -/
theorem parseFrontmatter_spec_witness :
    listStartsWith (normalizeNewlines ("---\na: b\n---".data)) ['-', '-', '-'] = true ∧
    (indexOfFrom (normalizeNewlines ("---\na: b\n---".data)) ['\n', '-', '-', '-'] 3).isSome
      = true :=
  (parseFrontmatter_spec ("---\na: b\n---".data) []).2.1 (by decide)

/-! ## C7: installer id resolution -/

theorem dropWhile_isWs_eq_self (l : List Char) (h : ∀ c ∈ l, isWs c = false) :
    l.dropWhile isWs = l := by
  cases l with
  | nil => rfl
  | cons c rest =>
    rw [List.dropWhile_cons, h c (List.mem_cons_self c rest)]
    simp

theorem jsTrimL_eq_self (l : List Char) (h : ∀ c ∈ l, isWs c = false) :
    jsTrimL l = l := by
  rw [jsTrimL, dropWhile_isWs_eq_self l h,
    dropWhile_isWs_eq_self l.reverse (fun c hc => h c (List.mem_reverse.mp hc)),
    List.reverse_reverse]

theorem jsTrimStr_eq_self (s : String) (h : ∀ c ∈ s.data, isWs c = false) :
    jsTrimStr s = s := by
  rw [jsTrimStr, jsTrimL_eq_self s.data h]

theorem digitChar_not_ws (d : Nat) : isWs (digitChar d) = false := by
  rcases d with _ | _ | _ | _ | _ | _ | _ | _ | _ | d <;> rfl

theorem natDigitsAux_not_ws : ∀ (fuel n : Nat), ∀ c ∈ natDigitsAux fuel n, isWs c = false := by
  intro fuel
  induction fuel with
  | zero => intro n c hc; simp [natDigitsAux] at hc
  | succ f ih =>
    intro n c hc
    simp only [natDigitsAux] at hc
    by_cases h : n < 10
    · rw [if_pos h, List.mem_singleton] at hc
      subst hc
      exact digitChar_not_ws n
    · rw [if_neg h] at hc
      rcases List.mem_append.mp hc with hc | hc
      · exact ih (n / 10) c hc
      · rw [List.mem_singleton] at hc
        subst hc
        exact digitChar_not_ws _

theorem natDigits_not_ws (n : Nat) : ∀ c ∈ natDigits n, isWs c = false :=
  natDigitsAux_not_ws (n + 1) n

/-- The default value used to state positional access (`List.getD`). -/
def dfltSpec : SkillInstallSpec :=
  { id := none, kind := "", label := none, bins := [], formula := none,
    package := none, module := none }

theorem findSpecAux_hit : ∀ (specs : List SkillInstallSpec) (start i : Nat) (tid : String),
    i < specs.length →
    (∀ j, j < i → resolveInstallId (specs.getD j dfltSpec) (start + j) ≠ tid) →
    resolveInstallId (specs.getD i dfltSpec) (start + i) = tid →
    findSpecAux tid start specs = some (specs.getD i dfltSpec) := by
  intro specs
  induction specs with
  | nil => intro start i tid hi; simp at hi
  | cons s rest ih =>
    intro start i tid hi hne hhit
    cases i with
    | zero =>
      rw [show (s :: rest).getD 0 dfltSpec = s from rfl] at hhit ⊢
      rw [Nat.add_zero] at hhit
      rw [show findSpecAux tid start (s :: rest)
          = if resolveInstallId s start = tid then some s
            else findSpecAux tid (start + 1) rest from rfl, if_pos hhit]
    | succ i' =>
      have h0 : resolveInstallId s start ≠ tid := by
        have h00 := hne 0 (Nat.succ_pos i')
        rw [Nat.add_zero] at h00
        exact h00
      rw [show findSpecAux tid start (s :: rest)
          = if resolveInstallId s start = tid then some s
            else findSpecAux tid (start + 1) rest from rfl, if_neg h0]
      rw [show (s :: rest).getD (i' + 1) dfltSpec = rest.getD i' dfltSpec from rfl] at hhit ⊢
      refine ih (start + 1) i' tid (Nat.lt_of_succ_lt_succ hi) ?_ ?_
      · intro j hj
        have hj' := hne (j + 1) (Nat.succ_lt_succ hj)
        rw [show (s :: rest).getD (j + 1) dfltSpec = rest.getD j dfltSpec from rfl] at hj'
        rw [show start + 1 + j = start + (j + 1) from by omega]
        exact hj'
      · rw [show start + 1 + i' = start + (i' + 1) from by omega]
        exact hhit

/-- C7 (amended): the effective id of a spec without an explicit id at
position `i` is `"<kind>-<i>"` (for the four recognized kinds the trim is
a no-op); a spec with an explicit id resolves by that id trimmed; and
looking an id up returns the spec at position `i` provided no earlier spec
in the list resolves to the same id. -/
theorem installId_resolution :
    (∀ (spec : SkillInstallSpec) (i : Nat), spec.id = none →
      (spec.kind = "brew" ∨ spec.kind = "node" ∨ spec.kind = "go" ∨ spec.kind = "uv") →
      resolveInstallId spec i = spec.kind ++ "-" ++ natDigitsStr i) ∧
    (∀ (spec : SkillInstallSpec) (i : Nat) (s : String), spec.id = some s →
      resolveInstallId spec i = jsTrimStr s) ∧
    (∀ (entry : SkillEntry) (specs : List SkillInstallSpec) (i : Nat),
      (entry.clawdis.bind ClawdisSkillMetadata.install).getD [] = specs →
      i < specs.length →
      (∀ j, j < i →
        resolveInstallId (specs.getD j dfltSpec) j
          ≠ resolveInstallId (specs.getD i dfltSpec) i) →
      findInstallSpec entry (resolveInstallId (specs.getD i dfltSpec) i)
        = some (specs.getD i dfltSpec)) := by
  refine ⟨?_, ?_, ?_⟩
  · intro spec i hid hkind
    rw [resolveInstallId, hid]
    show jsTrimStr (spec.kind ++ "-" ++ natDigitsStr i) = spec.kind ++ "-" ++ natDigitsStr i
    apply jsTrimStr_eq_self
    intro c hc
    rw [String.data_append, String.data_append] at hc
    rcases List.mem_append.mp hc with hc | hc
    · rcases List.mem_append.mp hc with hc | hc
      · rcases hkind with hk | hk | hk | hk <;> rw [hk] at hc
        · exact (by decide : ∀ x ∈ ("brew" : String).data, isWs x = false) c hc
        · exact (by decide : ∀ x ∈ ("node" : String).data, isWs x = false) c hc
        · exact (by decide : ∀ x ∈ ("go" : String).data, isWs x = false) c hc
        · exact (by decide : ∀ x ∈ ("uv" : String).data, isWs x = false) c hc
      · rw [show ("-" : String).data = ['-'] from rfl, List.mem_singleton] at hc
        subst hc
        rfl
    · exact natDigits_not_ws i c hc
  · intro spec i s hid
    rw [resolveInstallId, hid]
    rfl
  · intro entry specs i hspecs hi hne
    rw [findInstallSpec, hspecs]
    refine findSpecAux_hit specs 0 i _ hi ?_ ?_
    · intro j hj
      rw [Nat.zero_add]
      exact hne j hj
    · rw [Nat.zero_add]

def c7Spec0 : SkillInstallSpec :=
  { id := some "uv-1", kind := "uv", label := none, bins := [], formula := none,
    package := some "a", module := none }

def c7Spec1 : SkillInstallSpec :=
  { id := none, kind := "uv", label := none, bins := [], formula := none,
    package := some "b", module := none }

def c7Entry : SkillEntry :=
  { skill := { name := "s", filePath := "f", description := "d" }
    frontmatter := []
    clawdis := some
      { always := none, skillKey := none, primaryEnv := none, emoji := none,
        homepage := none, requires := none, install := some [c7Spec0, c7Spec1] } }

/-- C7 counterexample: the id-less spec at position 1 has computed id
`"uv-1"`, but resolving `"uv-1"` returns the distinct spec at position 0,
whose explicit id collides — lookup by a computed id does not always
return the spec at that position. -/
theorem c7_counterexample :
    resolveInstallId c7Spec1 1 = "uv-1" ∧
    findInstallSpec c7Entry "uv-1" = some c7Spec0 ∧
    c7Spec0 ≠ c7Spec1 := by
  refine ⟨?_, ?_, ?_⟩ <;> decide

def c7EntryOk : SkillEntry :=
  { skill := { name := "s2", filePath := "f", description := "d" }
    frontmatter := []
    clawdis := some
      { always := none, skillKey := none, primaryEnv := none, emoji := none,
        homepage := none, requires := none, install := some [c7Spec1] } }

/-- Witness for the amended C7 at a collision-free concrete list. -/
theorem installId_resolution_witness :
    resolveInstallId c7Spec1 0 = "uv" ++ "-" ++ natDigitsStr 0 ∧
    findInstallSpec c7EntryOk (resolveInstallId ([c7Spec1].getD 0 dfltSpec) 0)
      = some ([c7Spec1].getD 0 dfltSpec) :=
  ⟨installId_resolution.1 c7Spec1 0 rfl (Or.inr (Or.inr (Or.inr rfl))),
   installId_resolution.2.2 c7EntryOk [c7Spec1] 0 rfl (by decide)
     (fun j hj => absurd hj (Nat.not_lt_zero j))⟩

/-! ## C6: synthesis errors short-circuit before any process spawn -/

theorem buildInstallCommand_error_iff (spec : SkillInstallSpec) (prefs : SkillsInstallPreferences) :
    optStrTruthy (buildInstallCommand spec prefs).error = true ↔
      ((spec.kind = "brew" ∧ optStrTruthy spec.formula = false)
       ∨ (spec.kind = "node" ∧ optStrTruthy spec.package = false)
       ∨ (spec.kind = "go" ∧ optStrTruthy spec.module = false)
       ∨ (spec.kind = "uv" ∧ optStrTruthy spec.package = false)
       ∨ (spec.kind ≠ "brew" ∧ spec.kind ≠ "node" ∧ spec.kind ≠ "go" ∧ spec.kind ≠ "uv")) := by
  have d1 : ("brew" : String) ≠ "node" := by decide
  have d2 : ("brew" : String) ≠ "go" := by decide
  have d3 : ("brew" : String) ≠ "uv" := by decide
  have d4 : ("node" : String) ≠ "brew" := by decide
  have d5 : ("node" : String) ≠ "go" := by decide
  have d6 : ("node" : String) ≠ "uv" := by decide
  have d7 : ("go" : String) ≠ "brew" := by decide
  have d8 : ("go" : String) ≠ "node" := by decide
  have d9 : ("go" : String) ≠ "uv" := by decide
  have d10 : ("uv" : String) ≠ "brew" := by decide
  have d11 : ("uv" : String) ≠ "node" := by decide
  have d12 : ("uv" : String) ≠ "go" := by decide
  by_cases k1 : spec.kind = "brew"
  · by_cases hf : spec.formula.getD "" = "" <;>
      simp [buildInstallCommand, k1, hf, optStrTruthy, d1, d2, d3]
  · by_cases k2 : spec.kind = "node"
    · by_cases hp : spec.package.getD "" = "" <;>
        simp [buildInstallCommand, k1, k2, hp, optStrTruthy, d4, d5, d6]
    · by_cases k3 : spec.kind = "go"
      · by_cases hm : spec.module.getD "" = "" <;>
          simp [buildInstallCommand, k1, k2, k3, hm, optStrTruthy, d7, d8, d9]
      · by_cases k4 : spec.kind = "uv"
        · by_cases hp : spec.package.getD "" = "" <;>
            simp [buildInstallCommand, k1, k2, k3, k4, hp, optStrTruthy, d10, d11, d12]
        · simp [buildInstallCommand, k1, k2, k3, k4, optStrTruthy]

/-- C6: a synthesis error — brew without formula, node without package, go
without module, uv without package, or an unsupported kind — makes
`installSkill` return a failure carrying exactly that error message, with
no process spawned (no install command and no bootstrap sub-install). -/
theorem synthesisError_no_spawn
    (runner : List String → RunOutcome) (hasBin : String → Bool)
    (entries : List SkillEntry) (skillName installId : String)
    (config : Option ClawdisConfig) (entry : SkillEntry) (spec : SkillInstallSpec)
    (hentry : entries.find? (fun item => decide (item.skill.name = skillName)) = some entry)
    (hspec : findInstallSpec entry installId = some spec) :
    (optStrTruthy (buildInstallCommand spec (resolveSkillsInstallPreferences config)).error = true ↔
      ((spec.kind = "brew" ∧ optStrTruthy spec.formula = false)
       ∨ (spec.kind = "node" ∧ optStrTruthy spec.package = false)
       ∨ (spec.kind = "go" ∧ optStrTruthy spec.module = false)
       ∨ (spec.kind = "uv" ∧ optStrTruthy spec.package = false)
       ∨ (spec.kind ≠ "brew" ∧ spec.kind ≠ "node" ∧ spec.kind ≠ "go" ∧ spec.kind ≠ "uv"))) ∧
    (optStrTruthy (buildInstallCommand spec (resolveSkillsInstallPreferences config)).error = true →
      installSkill runner hasBin entries skillName installId config
        = ({ ok := false
             message := (buildInstallCommand spec (resolveSkillsInstallPreferences config)).error.getD ""
             stdout := "", stderr := "", code := none }, [])) := by
  refine ⟨buildInstallCommand_error_iff spec _, ?_⟩
  intro herr
  simp only [installSkill, hentry, hspec]
  rw [if_pos herr]

def c6Spec : SkillInstallSpec :=
  { id := some "b0", kind := "brew", label := none, bins := [], formula := none,
    package := none, module := none }

def c6Entry : SkillEntry :=
  { skill := { name := "sk", filePath := "f", description := "d" }
    frontmatter := []
    clawdis := some
      { always := none, skillKey := none, primaryEnv := none, emoji := none,
        homepage := none, requires := none, install := some [c6Spec] } }

/-- Witness for C6: a brew spec with no formula yields the failure
`missing brew formula` and spawns nothing. -/
theorem synthesisError_no_spawn_witness :
    installSkill (fun _ => ⟨some 0, "", ""⟩) (fun _ => true) [c6Entry] "sk" "b0" none
      = ({ ok := false, message := "missing brew formula", stdout := "", stderr := "",
           code := none }, []) := by
  have h := (synthesisError_no_spawn (fun _ => ⟨some 0, "", ""⟩) (fun _ => true)
    [c6Entry] "sk" "b0" none c6Entry c6Spec (by decide) (by decide)).2 (by decide)
  rw [h]
  rfl

/-! ## C4: uv bootstrap fallback -/

/-- C4 (amended): for a resolved spec of kind `uv` whose command synthesis
succeeds (a package is present) and with the `uv` binary absent: if `brew`
is also absent, `installSkill` fails immediately with the
`uv not installed` message and spawns nothing; if `brew` is present and
the `brew install uv` sub-install exits nonzero (or without a code), the
failure carries the sub-install's trimmed output and only the brew command
was spawned — the `uv` command is never run; if the sub-install exits
zero, `brew install uv` is spawned first and then `uv tool install`. -/
theorem uvBootstrap
    (runner : List String → RunOutcome) (hasBin : String → Bool)
    (entries : List SkillEntry) (skillName installId : String)
    (config : Option ClawdisConfig) (entry : SkillEntry) (spec : SkillInstallSpec)
    (hentry : entries.find? (fun item => decide (item.skill.name = skillName)) = some entry)
    (hspec : findInstallSpec entry installId = some spec)
    (hkind : spec.kind = "uv")
    (hpkg : optStrTruthy spec.package = true)
    (huv : hasBin "uv" = false) :
    (hasBin "brew" = false →
      installSkill runner hasBin entries skillName installId config
        = ({ ok := false, message := "uv not installed (install via brew)",
             stdout := "", stderr := "", code := none }, [])) ∧
    (hasBin "brew" = true → (runner ["brew", "install", "uv"]).code ≠ some 0 →
      installSkill runner hasBin entries skillName installId config
        = ({ ok := false, message := "Failed to install uv (brew)"
             stdout := jsTrimStr (runner ["brew", "install", "uv"]).stdout
             stderr := jsTrimStr (runner ["brew", "install", "uv"]).stderr
             code := (runner ["brew", "install", "uv"]).code }, [["brew", "install", "uv"]])) ∧
    (hasBin "brew" = true → (runner ["brew", "install", "uv"]).code = some 0 →
      (installSkill runner hasBin entries skillName installId config).2
        = [["brew", "install", "uv"], ["uv", "tool", "install", spec.package.getD ""]]) := by
  have hne1 : spec.kind ≠ "brew" := by rw [hkind]; decide
  have hne2 : spec.kind ≠ "node" := by rw [hkind]; decide
  have hne3 : spec.kind ≠ "go" := by rw [hkind]; decide
  have hpkg' : ¬ spec.package.getD "" = "" := by
    simp only [optStrTruthy, decide_eq_true_eq] at hpkg
    exact hpkg
  have hcmd : buildInstallCommand spec (resolveSkillsInstallPreferences config)
      = { argv := some ["uv", "tool", "install", spec.package.getD ""], error := none } := by
    simp only [buildInstallCommand]
    rw [if_neg hne1, if_neg hne2, if_neg hne3, if_pos hkind,
      if_neg (show ¬ optStrTruthy spec.package = false from by rw [hpkg]; decide)]
  have herr : optStrTruthy (buildInstallCommand spec (resolveSkillsInstallPreferences config)).error
      = false := by
    rw [hcmd]
    rfl
  refine ⟨?_, ?_, ?_⟩
  · intro hbrew
    simp only [installSkill, hentry, hspec]
    rw [if_neg (by rw [herr]; decide), if_pos ⟨hkind, huv⟩, if_neg (by rw [hbrew]; decide)]
  · intro hbrew hcode
    simp only [installSkill, hentry, hspec]
    rw [if_neg (by rw [herr]; decide), if_pos ⟨hkind, huv⟩, if_pos hbrew, if_pos hcode]
  · intro hbrew hcode
    simp only [installSkill, hentry, hspec]
    rw [if_neg (by rw [herr]; decide), if_pos ⟨hkind, huv⟩, if_pos hbrew,
      if_neg (by rw [hcode]; decide), hcmd]
    rfl

def c4Spec : SkillInstallSpec :=
  { id := some "u0", kind := "uv", label := none, bins := [], formula := none,
    package := none, module := none }

def c4Entry : SkillEntry :=
  { skill := { name := "sk4", filePath := "f", description := "d" }
    frontmatter := []
    clawdis := some
      { always := none, skillKey := none, primaryEnv := none, emoji := none,
        homepage := none, requires := none, install := some [c4Spec] } }

/-- C4 counterexample: a resolved spec of kind `uv` with `uv` absent from
the path and `brew` present for which `installSkill` does not first run
`brew install uv` — the spec has no package, so the synthesis error is
returned with no process spawned at all. -/
theorem c4_counterexample :
    installSkill (fun _ => ⟨some 0, "", ""⟩) (fun b => decide (b = "brew"))
        [c4Entry] "sk4" "u0" none
      = ({ ok := false, message := "missing uv package", stdout := "", stderr := "",
           code := none }, []) := by
  decide

def c4RunnerFail : List String → RunOutcome := fun _ => ⟨some 1, "boom", "err"⟩

def c4RunnerOk : List String → RunOutcome := fun _ => ⟨some 0, "out", ""⟩

/-- Witness for the amended C4 on all three bootstrap branches. -/
theorem uvBootstrap_witness :
    (installSkill c4RunnerFail (fun _ => false) [c7EntryOk] "s2" "uv-0" none
      = ({ ok := false, message := "uv not installed (install via brew)",
           stdout := "", stderr := "", code := none }, [])) ∧
    (installSkill c4RunnerFail (fun b => decide (b = "brew")) [c7EntryOk] "s2" "uv-0" none
      = ({ ok := false, message := "Failed to install uv (brew)", stdout := "boom",
           stderr := "err", code := some 1 }, [["brew", "install", "uv"]])) ∧
    ((installSkill c4RunnerOk (fun b => decide (b = "brew")) [c7EntryOk] "s2" "uv-0" none).2
      = [["brew", "install", "uv"], ["uv", "tool", "install", "b"]]) := by
  refine ⟨?_, ?_, ?_⟩
  · have h := (uvBootstrap c4RunnerFail (fun _ => false) [c7EntryOk] "s2" "uv-0" none
      c7EntryOk c7Spec1 (by decide) (by decide) (by decide) (by decide) (by decide)).1 rfl
    rw [h]
  · have h := (uvBootstrap c4RunnerFail (fun b => decide (b = "brew")) [c7EntryOk] "s2" "uv-0"
      none c7EntryOk c7Spec1 (by decide) (by decide) (by decide) (by decide)
      (by decide)).2.1 (by decide) (by decide)
    rw [h]
    decide
  · have h := (uvBootstrap c4RunnerOk (fun b => decide (b = "brew")) [c7EntryOk] "s2" "uv-0"
      none c7EntryOk c7Spec1 (by decide) (by decide) (by decide) (by decide)
      (by decide)).2.2 (by decide) (by decide)
    rw [h]
    decide

end Clawdis
